import Mathlib

/-!
# Verification of the PLUMATOTM scoring core

Shallow embedding of the scoring pipeline of `plumatotm_core.py`
(class `BirthChartAnalyzer`): dynamic planet weights, raw scores,
weighted scores, animal totals, top-3 percentage strength and the
top-3 true/false table.

Modelling conventions:
* Python `dict`s (insertion-ordered, unique keys) are association lists
  `List (String × _)`; `lookupKey` returns the first binding, which agrees
  with `dict` lookup whenever keys are unique (dict keys always are).
* Python floats are rationals `ℚ`; every arithmetic operation performed by
  the pipeline (`*`, `/`, comparison with `0`) is exact, and the claims under
  study are algebraic identities or bounds that are invariant under this
  idealisation.
* A pandas `DataFrame` is a `ScoreFrame`: an explicit column list (`cols`)
  plus rows `(index label, cells)`; by construction every row built by the
  pipeline has exactly the columns of `cols`, which mirrors a frame.
* Python statements that can raise (`dict[k]` raising `KeyError`,
  `.loc[missing]`) are embedded in `Except String`; an unset (`NaN`) cell of
  the top-3 percentage table is `Option.none`.
* `for`-loops with possible `raise` are the explicit recursions `mapME` /
  `foldME` (the `Except` specialisations of `mapM` / `foldlM`).
-/

namespace Plumatotm

/-- A planet→value dictionary (base weights, or dynamic weights). -/
abbrev Weights := List (String × ℚ)

/-- The multiplier table: sign → (planet → multiplier). -/
abbrev Multipliers := List (String × List (String × ℚ))

/-- A planet→sign placement map, as produced by `compute_birth_chart`. -/
abbrev Placements := List (String × String)

/-- One record of the animal score table: `{"ANIMAL": name, SIGN: score, ...}`. -/
structure AnimalRecord where
  name : String
  scores : List (String × ℚ)
deriving Repr, DecidableEq

/-- A pandas `DataFrame` with string row index and rational cells:
an explicit column list plus `(row label, cells)` rows. -/
structure ScoreFrame where
  cols : List String
  rows : List (String × List (String × ℚ))
deriving Repr, DecidableEq

/-- First-binding association-list lookup; agrees with Python `dict`
lookup because `dict` keys are unique. -/
def lookupKey {α : Type} (k : String) : List (String × α) → Option α
  | [] => none
  | c :: cs => if c.1 = k then some c.2 else lookupKey k cs

/-- `List.mapM` specialised to `Except String`, written as the explicit
recursion a Python `for`-loop with `raise` performs. -/
def mapME {α β : Type} (f : α → Except String β) : List α → Except String (List β)
  | [] => .ok []
  | x :: xs =>
    match f x with
    | .error e => .error e
    | .ok y =>
      match mapME f xs with
      | .error e => .error e
      | .ok ys => .ok (y :: ys)

/-- `List.foldlM` specialised to `Except String`: a Python `for`-loop
threading mutable state, where any iteration may `raise`. -/
def foldME {σ α : Type} (f : σ → α → Except String σ) : σ → List α → Except String σ
  | s, [] => .ok s
  | s, x :: xs =>
    match f s x with
    | .error e => .error e
    | .ok s' => foldME f s' xs

/-- Embeds `BirthChartAnalyzer._load_planet_multipliers`: builds
`{row["Planet"].upper(): {planet: row[planet]}}` from the parsed CSV rows.
The source performs no completeness validation whatsoever — it only copies
the rows that are present (any failure there could only come from malformed
numeric cells, which the typed input rules out). -/
def load_planet_multipliers (csvRows : List (String × List (String × ℚ))) : Multipliers :=
  csvRows.map (fun r => (r.1.toUpper, r.2))

/-- The body of the `for planet, sign in planet_signs.items()` loop of
`compute_dynamic_planet_weights`:
`dynamic_weights[planet] = planet_weights[planet] * planet_multipliers[sign][planet]`.
Each subscript is a Python `dict[...]` access that raises `KeyError`
when the key is absent — there is no membership check in the source. -/
def dynWeightOf (planet_weights : Weights) (planet_multipliers : Multipliers)
    (ps : String × String) : Except String (String × ℚ) :=
  match lookupKey ps.1 planet_weights with
  | none => .error ("KeyError: " ++ ps.1)
  | some base_weight =>
    match lookupKey ps.2 planet_multipliers with
    | none => .error ("KeyError: " ++ ps.2)
    | some signRow =>
      match lookupKey ps.1 signRow with
      | none => .error ("KeyError: " ++ ps.1)
      | some multiplier => .ok (ps.1, base_weight * multiplier)

/-- Embeds `BirthChartAnalyzer.compute_dynamic_planet_weights`:
runs `dynWeightOf` over the placement items, in placement order. -/
def compute_dynamic_planet_weights (planet_weights : Weights)
    (planet_multipliers : Multipliers) (planet_signs : Placements) :
    Except String Weights :=
  mapME (dynWeightOf planet_weights planet_multipliers) planet_signs

/-- The `scores[planet] = animal_data[sign] if sign in animal_data else 0`
lookup of `compute_raw_scores` (the warning print is I/O only). -/
def lookupScoreOr0 (animal : AnimalRecord) (sign : String) : ℚ :=
  (lookupKey sign animal.scores).getD 0

/-- Embeds `BirthChartAnalyzer.compute_raw_scores`: one row per animal
record (in table order), one column per placement-map key (in placement
order), cell = the animal's score for the point's sign (0 if absent). -/
def compute_raw_scores (planet_signs : Placements) (animals : List AnimalRecord) :
    ScoreFrame :=
  { cols := planet_signs.map Prod.fst
    rows := animals.map (fun animal =>
      (animal.name, planet_signs.map (fun ps => (ps.1, lookupScoreOr0 animal ps.2)))) }

/-- The two dataframes alive during `compute_weighted_scores`:
the input `raw_scores` and the working copy `weighted_scores`
(created by `raw_scores.copy()`, then mutated column by column). -/
structure WeightedState where
  raw : ScoreFrame
  weighted : ScoreFrame
deriving Repr, DecidableEq

/-- One iteration of the `for planet in self.supported_planets` loop of
`compute_weighted_scores`: if the planet is a column of the working frame,
multiply that column by `dynamic_weights[planet]` (a `dict` access that
raises `KeyError` when absent); otherwise do nothing. Only the working
copy `weighted` is written, mirroring the source's in-place column update. -/
def weightStep (dynamic_weights : Weights) (st : WeightedState) (planet : String) :
    Except String WeightedState :=
  if planet ∈ st.weighted.cols then
    match lookupKey planet dynamic_weights with
    | none => .error ("KeyError: " ++ planet)
    | some w =>
      .ok { st with
        weighted :=
          { cols := st.weighted.cols
            rows := st.weighted.rows.map (fun r =>
              (r.1, r.2.map (fun c => (c.1, if c.1 = planet then c.2 * w else c.2)))) } }
  else .ok st

/-- Embeds `BirthChartAnalyzer.compute_weighted_scores` as a state machine
over the pair (input frame, working copy): `weighted_scores = raw_scores.copy()`
followed by the column-update loop over `self.supported_planets`. -/
def compute_weighted_scoresSt (supported_planets : List String)
    (raw_scores : ScoreFrame) (dynamic_weights : Weights) :
    Except String WeightedState :=
  foldME (weightStep dynamic_weights) { raw := raw_scores, weighted := raw_scores }
    supported_planets

/-- `weighted_scores.sum(axis=1)` of `compute_animal_totals`:
per-row sum over all cells, keeping row order. -/
def animalTotalsUnsorted (weighted_scores : ScoreFrame) : List (String × ℚ) :=
  weighted_scores.rows.map (fun r => (r.1, (r.2.map Prod.snd).sum))

/-- Insert into a list kept in descending order of the second component,
before the first strictly smaller element. -/
def insertDesc (x : String × ℚ) : List (String × ℚ) → List (String × ℚ)
  | [] => [x]
  | y :: ys => if y.2 ≤ x.2 then x :: y :: ys else y :: insertDesc x ys

/-- Descending insertion sort by the second component.  It embeds
`sort_values(ascending=False)` (used on `'TOTAL_SCORE'` and on each
animal's score series).  The source leaves the relative order of
equal keys to pandas' default `kind='quicksort'`, which is documented
as not stable; every theorem below that involves a sort is independent
of the order chosen among equal keys, so this fixed (stable) order is
an admissible representative. -/
def sortDesc (l : List (String × ℚ)) : List (String × ℚ) :=
  l.foldr insertDesc []

/-- Embeds `BirthChartAnalyzer.compute_animal_totals`: row sums, then
`sort_values('TOTAL_SCORE', ascending=False)`. -/
def compute_animal_totals (weighted_scores : ScoreFrame) : List (String × ℚ) :=
  sortDesc (animalTotalsUnsorted weighted_scores)

/-- `animal_totals.head(3)['ANIMAL'].tolist()`. -/
def top3 (animal_totals : List (String × ℚ)) : List String :=
  (animal_totals.map Prod.fst).take 3

/-- The maximum of a list of rationals (`Series.max()`); `none` on the
empty list, matching pandas' `NaN` (for which `NaN > 0` is false). -/
def listMax : List ℚ → Option ℚ
  | [] => none
  | x :: xs =>
    match listMax xs with
    | none => some x
    | some m => some (max x m)

/-- The values of column `p` present in the frame
(`weighted_scores[p]`, one value per row). -/
def colVals (f : ScoreFrame) (p : String) : List ℚ :=
  f.rows.filterMap (fun r => lookupKey p r.2)

/-- One cell of the percentage-strength table, for a top-3 animal whose
weighted row is `row` and a supported planet `p`.  A planet that is not a
column of the weighted frame is never assigned and keeps the `NaN` the
table was initialised with (`none` here).  For a present column:
`max_score = weighted_scores[p].max()`; if `max_score > 0` the cell is
`weighted/max*100`, otherwise `0` (also when the column is empty, where
pandas' `max()` is `NaN` and `NaN > 0` is false). -/
def psCellVal (weighted_scores : ScoreFrame) (row : List (String × ℚ)) (p : String) :
    Option ℚ :=
  if p ∈ weighted_scores.cols then
    some (match listMax (colVals weighted_scores p) with
          | some m => if 0 < m then (lookupKey p row).getD 0 / m * 100 else 0
          | none => 0)
  else none

/-- Embeds `BirthChartAnalyzer.compute_top3_percentage_strength`:
rows are the top-3 animals (`.loc` raising `KeyError` on a missing label),
columns are all `supported_planets`, cells per `psCellVal`. -/
def compute_top3_percentage_strength (supported_planets : List String)
    (weighted_scores : ScoreFrame) (animal_totals : List (String × ℚ)) :
    Except String (List (String × List (String × Option ℚ))) :=
  mapME (fun a =>
    match lookupKey a weighted_scores.rows with
    | none => .error ("KeyError: " ++ a)
    | some row =>
      .ok (a, supported_planets.map (fun p => (p, psCellVal weighted_scores row p))))
    (top3 animal_totals)

/-- Embeds `BirthChartAnalyzer.compute_top3_true_false`: for each top-3
animal, sort its own weighted row descending, keep the first six planets,
and flag every supported planet by membership in that list. -/
def compute_top3_true_false (supported_planets : List String)
    (weighted_scores : ScoreFrame) (animal_totals : List (String × ℚ)) :
    Except String (List (String × List (String × Bool))) :=
  mapME (fun a =>
    match lookupKey a weighted_scores.rows with
    | none => .error ("KeyError: " ++ a)
    | some row =>
      let sorted_planets := ((sortDesc row).take 6).map Prod.fst
      .ok (a, supported_planets.map (fun p => (p, decide (p ∈ sorted_planets)))))
    (top3 animal_totals)

/-- The scoring part of the combined result (`combined_results` of
`generate_outputs`, minus the birth chart which is external input). -/
structure CombinedResults where
  planet_weights : Weights
  raw_scores : ScoreFrame
  weighted_scores : ScoreFrame
  animal_totals : List (String × ℚ)
  top3_percentage_strength : List (String × List (String × Option ℚ))
  top3_true_false : List (String × List (String × Bool))
deriving Repr, DecidableEq

/-- Embeds steps 2–7 of `BirthChartAnalyzer.run_analysis` (everything after
the external birth-chart computation and before file output): the scoring
pipeline as a function of the three configuration tables and the placement
map, with `supported_planets = list(planet_weights.keys())`. -/
def run_scoring_pipeline (planet_weights : Weights) (planet_multipliers : Multipliers)
    (animals : List AnimalRecord) (planet_signs : Placements) :
    Except String CombinedResults :=
  match compute_dynamic_planet_weights planet_weights planet_multipliers planet_signs with
  | .error e => .error e
  | .ok dynamic_weights =>
    let raw := compute_raw_scores planet_signs animals
    match compute_weighted_scoresSt (planet_weights.map Prod.fst) raw dynamic_weights with
    | .error e => .error e
    | .ok wst =>
      let totals := compute_animal_totals wst.weighted
      match compute_top3_percentage_strength (planet_weights.map Prod.fst)
          wst.weighted totals with
      | .error e => .error e
      | .ok ps =>
        match compute_top3_true_false (planet_weights.map Prod.fst) wst.weighted totals with
        | .error e => .error e
        | .ok tf => .ok ⟨dynamic_weights, raw, wst.weighted, totals, ps, tf⟩

/-- Cell access of a `ScoreFrame` (`df.loc[a][p]` as an `Option`). -/
def getCell (f : ScoreFrame) (a p : String) : Option ℚ :=
  (lookupKey a f.rows).bind (fun row => lookupKey p row)

end Plumatotm

namespace Plumatotm

/-! ## Concrete example configuration (the scenario of the spec, §8) -/

/-- Example weight table: `{Sun: 23, Moon: 15}`. -/
def exW : Weights := [("Sun", 23), ("Moon", 15)]

/-- Example multiplier table: `{ARIES: {Sun: 1.2, Moon: 0.9}}`. -/
def exM : Multipliers := [("ARIES", [("Sun", 6/5), ("Moon", 9/10)])]

/-- Example placement map: `{Sun: ARIES, Moon: ARIES}`. -/
def exPls : Placements := [("Sun", "ARIES"), ("Moon", "ARIES")]

/-- Example animal table: Fox 80 / Bear 50 on ARIES. -/
def exAnimals : List AnimalRecord :=
  [⟨"Fox", [("ARIES", 80)]⟩, ⟨"Bear", [("ARIES", 50)]⟩]

/-- `Except` results can be compared by cases on the constructor. -/
instance {ε α : Type} [DecidableEq ε] [DecidableEq α] : DecidableEq (Except ε α) := fun x y =>
  match x, y with
  | .ok a, .ok b =>
    match decEq a b with
    | isTrue h => isTrue (h ▸ rfl)
    | isFalse h => isFalse (fun hc => h (Except.ok.inj hc))
  | .error a, .error b =>
    match decEq a b with
    | isTrue h => isTrue (h ▸ rfl)
    | isFalse h => isFalse (fun hc => h (Except.error.inj hc))
  | .ok _, .error _ => isFalse (fun hc => Except.noConfusion hc)
  | .error _, .ok _ => isFalse (fun hc => Except.noConfusion hc)

set_option maxRecDepth 4000 in
/-- The worked scenario of the spec: `DynamicWeights = {Sun: 27.6, Moon: 13.5}`. -/
theorem spec_scenario_dynamic_weights :
    compute_dynamic_planet_weights exW exM exPls =
      .ok [("Sun", 138/5), ("Moon", 27/2)] := by with_unfolding_all decide

/-! ## Association-list lookup lemmas -/

theorem lookupKey_map_val {α β : Type} (g : String → α → β) :
    ∀ (l : List (String × α)) (k : String),
      lookupKey k (l.map (fun c => (c.1, g c.1 c.2))) = (lookupKey k l).map (g k)
  | [], _ => rfl
  | c :: cs, k => by
    by_cases h : c.1 = k
    · subst h; simp [lookupKey]
    · simp only [List.map_cons, lookupKey, h, if_false]
      exact lookupKey_map_val g cs k

theorem lookupKey_map_key {β : Type} (g : String → β) :
    ∀ (l : List String) (k : String), k ∈ l →
      lookupKey k (l.map (fun a => (a, g a))) = some (g k)
  | [], _, h => absurd h (List.not_mem_nil _)
  | a :: as, k, h => by
    by_cases hak : a = k
    · subst hak; simp [lookupKey]
    · have hk : k ∈ as := by
        rcases List.mem_cons.mp h with h1 | h1
        · exact absurd h1.symm hak
        · exact h1
      simp only [List.map_cons, lookupKey, hak, if_false]
      exact lookupKey_map_key g as k hk

theorem lookupKey_map_pairs {α β : Type} (key : α → String) (val : α → β) :
    ∀ (l : List α) (k : String) (v : β),
      lookupKey k (l.map (fun x => (key x, val x))) = some v →
      ∃ x ∈ l, key x = k ∧ v = val x
  | [], _, _, h => by simp [lookupKey] at h
  | x :: xs, k, v, h => by
    by_cases hk : key x = k
    · refine ⟨x, List.mem_cons_self _ _, hk, ?_⟩
      simp only [List.map_cons, lookupKey, hk, if_true] at h
      exact (Option.some.inj h).symm
    · simp only [List.map_cons, lookupKey, hk, if_false] at h
      obtain ⟨y, hy, hky, hv⟩ := lookupKey_map_pairs key val xs k v h
      exact ⟨y, List.mem_cons_of_mem _ hy, hky, hv⟩

theorem mem_of_lookupKey_eq_some {α : Type} :
    ∀ {l : List (String × α)} {k : String} {v : α},
      lookupKey k l = some v → (k, v) ∈ l
  | [], _, _, h => by simp [lookupKey] at h
  | c :: cs, k, v, h => by
    by_cases hk : c.1 = k
    · simp only [lookupKey, hk, if_true] at h
      subst hk
      obtain rfl := Option.some.inj h
      exact List.mem_cons_self _ _
    · simp only [lookupKey, hk, if_false] at h
      exact List.mem_cons_of_mem _ (mem_of_lookupKey_eq_some h)

theorem mem_fst_of_lookupKey_eq_some {α : Type} {l : List (String × α)} {k : String}
    {v : α} (h : lookupKey k l = some v) : k ∈ l.map Prod.fst := by
  exact List.mem_map.mpr ⟨(k, v), mem_of_lookupKey_eq_some h, rfl⟩

theorem lookupKey_isSome_of_mem_fst {α : Type} :
    ∀ {l : List (String × α)} {k : String}, k ∈ l.map Prod.fst →
      ∃ v, lookupKey k l = some v
  | [], _, h => by simp at h
  | c :: cs, k, h => by
    by_cases hk : c.1 = k
    · exact ⟨c.2, by simp [lookupKey, hk]⟩
    · have : k ∈ cs.map Prod.fst := by
        rcases List.mem_cons.mp h with h1 | h1
        · exact absurd h1.symm hk
        · exact h1
      obtain ⟨v, hv⟩ := lookupKey_isSome_of_mem_fst this
      exact ⟨v, by simp [lookupKey, hk, hv]⟩

/-! ## `mapME` and `foldME` lemmas -/

theorem mapME_ok_of_forall {α β : Type} (f : α → Except String β) (g : α → β) :
    ∀ (l : List α), (∀ x ∈ l, f x = .ok (g x)) → mapME f l = .ok (l.map g)
  | [], _ => rfl
  | x :: xs, h => by
    have hx := h x (List.mem_cons_self _ _)
    have hxs := mapME_ok_of_forall f g xs (fun y hy => h y (List.mem_cons_of_mem _ hy))
    simp [mapME, hx, hxs]

theorem mapME_error_of_exists {α β : Type} (f : α → Except String β) :
    ∀ (l : List α), (∃ x ∈ l, ∃ e, f x = .error e) → ∃ e, mapME f l = .error e
  | [], h => by simp at h
  | x :: xs, h => by
    rcases hfx : f x with e | y
    · exact ⟨e, by simp [mapME, hfx]⟩
    · obtain ⟨z, hz, e, he⟩ := h
      rcases List.mem_cons.mp hz with rfl | hz'
      · rw [hfx] at he; exact absurd he (by simp)
      · obtain ⟨e', he'⟩ := mapME_error_of_exists f xs ⟨z, hz', e, he⟩
        exact ⟨e', by simp [mapME, hfx, he']⟩

theorem mapME_cons_ok {α β : Type} {f : α → Except String β} {x : α} {xs : List α}
    {ys : List β} (h : mapME f (x :: xs) = .ok ys) :
    ∃ y ys', f x = .ok y ∧ mapME f xs = .ok ys' ∧ ys = y :: ys' := by
  rcases hfx : f x with e | y
  · rw [mapME, hfx] at h; exact absurd h (by simp)
  · rcases hxs : mapME f xs with e | ys'
    · rw [mapME, hfx, hxs] at h; exact absurd h (by simp)
    · rw [mapME, hfx, hxs] at h
      exact ⟨y, ys', rfl, rfl, (Except.ok.inj h).symm⟩

/-! ## `listMax` lemmas -/

theorem le_listMax_of_mem : ∀ {l : List ℚ} {v m : ℚ}, v ∈ l → listMax l = some m → v ≤ m
  | [], _, _, hv, _ => absurd hv (List.not_mem_nil _)
  | x :: xs, v, m, hv, hm => by
    rcases hxs : listMax xs with _ | m'
    · rw [listMax, hxs] at hm
      obtain rfl := Option.some.inj hm
      rcases List.mem_cons.mp hv with rfl | hv'
      · exact le_refl v
      · cases xs with
        | nil => exact absurd hv' (List.not_mem_nil _)
        | cons z zs => exact absurd hxs (by rw [listMax]; rcases listMax zs with _ | w <;> simp)
    · rw [listMax, hxs] at hm
      obtain rfl := Option.some.inj hm
      rcases List.mem_cons.mp hv with rfl | hv'
      · exact le_max_left _ _
      · exact le_trans (le_listMax_of_mem hv' hxs) (le_max_right _ _)

theorem listMax_mem : ∀ {l : List ℚ} {m : ℚ}, listMax l = some m → m ∈ l
  | [], _, h => by simp [listMax] at h
  | x :: xs, m, h => by
    rcases hxs : listMax xs with _ | m'
    · rw [listMax, hxs] at h
      obtain rfl := Option.some.inj h
      exact List.mem_cons_self _ _
    · rw [listMax, hxs] at h
      obtain rfl := Option.some.inj h
      rcases le_total x m' with hle | hle
      · rw [max_eq_right hle]; exact List.mem_cons_of_mem _ (listMax_mem hxs)
      · rw [max_eq_left hle]; exact List.mem_cons_self _ _

/-! ## `sortDesc` lemmas -/

theorem insertDesc_perm (x : String × ℚ) :
    ∀ (l : List (String × ℚ)), (insertDesc x l).Perm (x :: l)
  | [] => List.Perm.refl _
  | y :: ys => by
    rw [insertDesc]
    by_cases h : y.2 ≤ x.2
    · simp [h]
    · simp only [h, if_false]
      exact ((insertDesc_perm x ys).cons y).trans (List.Perm.swap x y ys)

theorem sortDesc_perm : ∀ (l : List (String × ℚ)), (sortDesc l).Perm l
  | [] => List.Perm.refl _
  | x :: xs => by
    rw [sortDesc, List.foldr_cons]
    exact (insertDesc_perm x _).trans ((sortDesc_perm xs).cons x)

theorem sortDesc_length (l : List (String × ℚ)) : (sortDesc l).length = l.length :=
  (sortDesc_perm l).length_eq

/-! ## Inversion lemmas for the dynamic-weight computation -/

theorem dynWeightOf_ok {planet_weights : Weights} {planet_multipliers : Multipliers}
    {ps : String × String} {y : String × ℚ}
    (h : dynWeightOf planet_weights planet_multipliers ps = .ok y) :
    y.1 = ps.1 ∧ ∃ bw, lookupKey ps.1 planet_weights = some bw := by
  rw [dynWeightOf] at h
  split at h
  next => exact Except.noConfusion h
  next bw hbw =>
    split at h
    next => exact Except.noConfusion h
    next row hrow =>
      split at h
      next => exact Except.noConfusion h
      next m hm =>
        obtain rfl := Except.ok.inj h
        exact ⟨rfl, bw, hbw⟩

theorem dynWeightOf_error_of_no_weight {planet_weights : Weights}
    {planet_multipliers : Multipliers} {ps : String × String}
    (h : lookupKey ps.1 planet_weights = none) :
    dynWeightOf planet_weights planet_multipliers ps = .error ("KeyError: " ++ ps.1) := by
  rw [dynWeightOf, h]

theorem dynWeightOf_error_of_no_sign {planet_weights : Weights}
    {planet_multipliers : Multipliers} {ps : String × String} {bw : ℚ}
    (hbw : lookupKey ps.1 planet_weights = some bw)
    (h : lookupKey ps.2 planet_multipliers = none) :
    dynWeightOf planet_weights planet_multipliers ps = .error ("KeyError: " ++ ps.2) := by
  rw [dynWeightOf, hbw, h]

theorem dyn_ok_fst {planet_weights : Weights} {planet_multipliers : Multipliers} :
    ∀ {planet_signs : Placements} {dw : Weights},
      compute_dynamic_planet_weights planet_weights planet_multipliers planet_signs =
        .ok dw →
      dw.map Prod.fst = planet_signs.map Prod.fst
  | [], dw, h => by
    rw [compute_dynamic_planet_weights, mapME] at h
    rw [← Except.ok.inj h]; rfl
  | ps :: pss, dw, h => by
    rw [compute_dynamic_planet_weights] at h
    obtain ⟨y, ys, hy, hys, rfl⟩ := mapME_cons_ok h
    have h1 := (dynWeightOf_ok hy).1
    have h2 := dyn_ok_fst hys
    simp [h1, h2]

theorem dyn_ok_base_weight {planet_weights : Weights} {planet_multipliers : Multipliers} :
    ∀ {planet_signs : Placements} {dw : Weights},
      compute_dynamic_planet_weights planet_weights planet_multipliers planet_signs =
        .ok dw →
      ∀ ps ∈ planet_signs, ∃ bw, lookupKey ps.1 planet_weights = some bw
  | [], _, _, ps, hps => absurd hps (List.not_mem_nil _)
  | ps0 :: pss, dw, h, ps, hps => by
    rw [compute_dynamic_planet_weights] at h
    obtain ⟨y, ys, hy, hys, rfl⟩ := mapME_cons_ok h
    rcases List.mem_cons.mp hps with rfl | hps'
    · exact (dynWeightOf_ok hy).2
    · exact dyn_ok_base_weight hys ps hps'

theorem dyn_ok_lookup_isSome {planet_weights : Weights} {planet_multipliers : Multipliers}
    {planet_signs : Placements} {dw : Weights}
    (h : compute_dynamic_planet_weights planet_weights planet_multipliers planet_signs =
      .ok dw)
    {p : String} (hp : p ∈ planet_signs.map Prod.fst) : ∃ w, lookupKey p dw = some w :=
  lookupKey_isSome_of_mem_fst (by rw [dyn_ok_fst h]; exact hp)

/-! ## The weighted-score loop: frame preservation and full characterisation -/

theorem weightStep_ok_raw {dynamic_weights : Weights} {st st' : WeightedState}
    {planet : String} (h : weightStep dynamic_weights st planet = .ok st') :
    st'.raw = st.raw := by
  rw [weightStep] at h
  by_cases hp : planet ∈ st.weighted.cols
  · rw [if_pos hp] at h
    rcases hw : lookupKey planet dynamic_weights with _ | w <;> rw [hw] at h
    · exact absurd h (by simp)
    · rw [← Except.ok.inj h]
  · rw [if_neg hp] at h
    rw [← Except.ok.inj h]

theorem weightStep_ok_cols {dynamic_weights : Weights} {st st' : WeightedState}
    {planet : String} (h : weightStep dynamic_weights st planet = .ok st') :
    st'.weighted.cols = st.weighted.cols := by
  rw [weightStep] at h
  by_cases hp : planet ∈ st.weighted.cols
  · rw [if_pos hp] at h
    rcases hw : lookupKey planet dynamic_weights with _ | w <;> rw [hw] at h
    · exact absurd h (by simp)
    · rw [← Except.ok.inj h]
  · rw [if_neg hp] at h
    rw [← Except.ok.inj h]

theorem foldME_weightStep_raw {dynamic_weights : Weights} :
    ∀ {l : List String} {st st' : WeightedState},
      foldME (weightStep dynamic_weights) st l = .ok st' → st'.raw = st.raw
  | [], st, st', h => by rw [foldME] at h; rw [← Except.ok.inj h]
  | p :: ps, st, st', h => by
    rw [foldME] at h
    rcases h1 : weightStep dynamic_weights st p with e | s1 <;> rw [h1] at h
    · exact absurd h (by simp)
    · exact (foldME_weightStep_raw h).trans (weightStep_ok_raw h1)

theorem foldME_weightStep_cols {dynamic_weights : Weights} :
    ∀ {l : List String} {st st' : WeightedState},
      foldME (weightStep dynamic_weights) st l = .ok st' →
      st'.weighted.cols = st.weighted.cols
  | [], st, st', h => by rw [foldME] at h; rw [← Except.ok.inj h]
  | p :: ps, st, st', h => by
    rw [foldME] at h
    rcases h1 : weightStep dynamic_weights st p with e | s1 <;> rw [h1] at h
    · exact absurd h (by simp)
    · exact (foldME_weightStep_cols h).trans (weightStep_ok_cols h1)

theorem weight_cell_compose {dynamic_weights : Weights} {p : String} {l : List String}
    {w : ℚ} (hw : lookupKey p dynamic_weights = some w) (hpl : p ∉ l) (c : String × ℚ) :
    ((fun c : String × ℚ =>
        (c.1, if c.1 ∈ l then c.2 * ((lookupKey c.1 dynamic_weights).getD 0) else c.2))
      ((fun c : String × ℚ => (c.1, if c.1 = p then c.2 * w else c.2)) c)) =
    (c.1, if c.1 ∈ p :: l then c.2 * ((lookupKey c.1 dynamic_weights).getD 0) else c.2) := by
  show (c.1, if c.1 ∈ l
          then (if c.1 = p then c.2 * w else c.2) *
            ((lookupKey c.1 dynamic_weights).getD 0)
          else (if c.1 = p then c.2 * w else c.2)) = _
  by_cases hc : c.1 = p
  · have hcl : c.1 ∉ l := by rw [hc]; exact hpl
    have hmem : c.1 ∈ p :: l := by rw [hc]; exact List.mem_cons_self _ _
    rw [if_neg hcl, if_pos hc, if_pos hmem, hc, hw]
    rfl
  · rw [if_neg hc]
    simp [List.mem_cons, hc]

theorem foldME_weightStep_ok (dynamic_weights : Weights) :
    ∀ (l : List String) (st : WeightedState), l.Nodup →
      (∀ r ∈ st.weighted.rows, r.2.map Prod.fst = st.weighted.cols) →
      (∀ p ∈ l, p ∈ st.weighted.cols → ∃ w, lookupKey p dynamic_weights = some w) →
      foldME (weightStep dynamic_weights) st l = .ok
        ⟨st.raw,
          ⟨st.weighted.cols,
            st.weighted.rows.map (fun r => (r.1, r.2.map (fun c =>
              (c.1, if c.1 ∈ l then c.2 * ((lookupKey c.1 dynamic_weights).getD 0)
                    else c.2))))⟩⟩
  | [], st, _, _, _ => by
    have hrows : st.weighted.rows.map (fun r => (r.1, r.2.map (fun c =>
        (c.1, if c.1 ∈ ([] : List String) then
          c.2 * ((lookupKey c.1 dynamic_weights).getD 0) else c.2)))) =
        st.weighted.rows := by
      simp
    rw [foldME, hrows]
  | p :: l, st, hnd, hu, hcov => by
    by_cases hp : p ∈ st.weighted.cols
    · obtain ⟨w, hw⟩ := hcov p (List.mem_cons_self _ _) hp
      have hpl : p ∉ l := (List.nodup_cons.mp hnd).1
      have hndl : l.Nodup := (List.nodup_cons.mp hnd).2
      set st' : WeightedState :=
        { st with
          weighted :=
            { cols := st.weighted.cols
              rows := st.weighted.rows.map (fun r =>
                (r.1, r.2.map (fun c =>
                  (c.1, if c.1 = p then c.2 * w else c.2)))) } } with hst'
      have hu' : ∀ r ∈ st'.weighted.rows, r.2.map Prod.fst = st'.weighted.cols := by
        intro r hr
        rw [hst'] at hr ⊢
        simp only at hr ⊢
        obtain ⟨r0, hr0, rfl⟩ := List.mem_map.mp hr
        simp only [List.map_map]
        have hfst : ∀ c ∈ r0.2,
            (Prod.fst ∘ fun c : String × ℚ =>
              (c.1, if c.1 = p then c.2 * w else c.2)) c = Prod.fst c := by
          intro c _; rfl
        rw [List.map_congr_left hfst]
        exact hu r0 hr0
      have hcov' : ∀ q ∈ l, q ∈ st'.weighted.cols →
          ∃ w', lookupKey q dynamic_weights = some w' := by
        intro q hq hqc
        exact hcov q (List.mem_cons_of_mem _ hq) hqc
      have hfold := foldME_weightStep_ok dynamic_weights l st' hndl hu' hcov'
      rw [foldME, weightStep, if_pos hp, hw]
      show foldME (weightStep dynamic_weights) st' l = _
      rw [hfold]
      congr 1
      rw [hst']
      simp only [List.map_map]
      congr 2
      apply List.map_congr_left
      intro r _
      simp only [Function.comp_apply]
      congr 1
      rw [List.map_map]
      apply List.map_congr_left
      intro c _
      exact weight_cell_compose hw hpl c
    · have hndl : l.Nodup := (List.nodup_cons.mp hnd).2
      have hcov' : ∀ q ∈ l, q ∈ st.weighted.cols →
          ∃ w', lookupKey q dynamic_weights = some w' := by
        intro q hq hqc
        exact hcov q (List.mem_cons_of_mem _ hq) hqc
      have hfold := foldME_weightStep_ok dynamic_weights l st hndl hu hcov'
      rw [foldME, weightStep, if_neg hp]
      show foldME (weightStep dynamic_weights) st l = _
      rw [hfold]
      congr 3
      apply List.map_congr_left
      intro r hr
      congr 1
      apply List.map_congr_left
      intro c hc
      have hckey : c.1 ∈ st.weighted.cols := by
        rw [← hu r hr]
        exact List.mem_map.mpr ⟨c, hc, rfl⟩
      have hcp : c.1 ≠ p := fun hcp => hp (hcp ▸ hckey)
      simp [List.mem_cons, hcp]

/-! ## The pipeline-level shape of the weighted frame -/

theorem lookupKey_map_snd {α β : Type} (F : α → β) :
    ∀ (l : List (String × α)) (k : String),
      lookupKey k (l.map (fun r => (r.1, F r.2))) = (lookupKey k l).map F
  | [], _ => rfl
  | c :: cs, k => by
    by_cases h : c.1 = k
    · simp [lookupKey, h]
    · simp only [List.map_cons, lookupKey, h, if_false]
      exact lookupKey_map_snd F cs k

theorem raw_cols (planet_signs : Placements) (animals : List AnimalRecord) :
    (compute_raw_scores planet_signs animals).cols = planet_signs.map Prod.fst := rfl

theorem raw_rows_uniform (planet_signs : Placements) (animals : List AnimalRecord) :
    ∀ r ∈ (compute_raw_scores planet_signs animals).rows,
      r.2.map Prod.fst = (compute_raw_scores planet_signs animals).cols := by
  intro r hr
  rw [compute_raw_scores] at hr
  simp only at hr
  obtain ⟨rec, hrec, rfl⟩ := List.mem_map.mp hr
  rw [raw_cols]
  simp only [List.map_map]
  exact List.map_congr_left (fun ps _ => rfl)

/-- The cell-scaling function that `compute_weighted_scores` applies to each
row of the raw frame, per the loop characterisation. -/
def scaleCell (supported_planets : List String) (dynamic_weights : Weights)
    (c : String × ℚ) : String × ℚ :=
  (c.1, if c.1 ∈ supported_planets then c.2 * ((lookupKey c.1 dynamic_weights).getD 0)
        else c.2)

theorem lookupKey_map_scaleCell (supported_planets : List String) (dynamic_weights : Weights) :
    ∀ (row : List (String × ℚ)) (k : String),
      lookupKey k (row.map (scaleCell supported_planets dynamic_weights)) =
      (lookupKey k row).map (fun v =>
        if k ∈ supported_planets then v * ((lookupKey k dynamic_weights).getD 0) else v)
  | [], _ => rfl
  | c :: cs, k => by
    by_cases h : c.1 = k
    · simp only [List.map_cons, scaleCell, lookupKey, h, if_true, Option.map_some']
    · simp only [List.map_cons, scaleCell, lookupKey, h, if_false]
      exact lookupKey_map_scaleCell supported_planets dynamic_weights cs k

theorem weighted_pipeline_ok {planet_weights : Weights} {planet_multipliers : Multipliers}
    {planet_signs : Placements} {animals : List AnimalRecord} {dw : Weights}
    (hnd : (planet_weights.map Prod.fst).Nodup)
    (hdw : compute_dynamic_planet_weights planet_weights planet_multipliers planet_signs =
      .ok dw) :
    compute_weighted_scoresSt (planet_weights.map Prod.fst)
        (compute_raw_scores planet_signs animals) dw = .ok
      ⟨compute_raw_scores planet_signs animals,
        ⟨(compute_raw_scores planet_signs animals).cols,
          (compute_raw_scores planet_signs animals).rows.map (fun r =>
            (r.1, r.2.map (scaleCell (planet_weights.map Prod.fst) dw)))⟩⟩ := by
  rw [compute_weighted_scoresSt]
  have hcov : ∀ p ∈ planet_weights.map Prod.fst,
      p ∈ (compute_raw_scores planet_signs animals).cols →
      ∃ w, lookupKey p dw = some w := by
    intro p _ hpc
    rw [raw_cols] at hpc
    exact dyn_ok_lookup_isSome hdw hpc
  have := foldME_weightStep_ok dw (planet_weights.map Prod.fst)
    { raw := compute_raw_scores planet_signs animals
      weighted := compute_raw_scores planet_signs animals }
    hnd (raw_rows_uniform planet_signs animals) hcov
  rw [this]
  rfl

/-! ## C1: the weighted-score identity -/

/-- **C1.** For every animal `a` and point `p` present in the raw score
matrix, the weighted matrix built by `compute_weighted_scores` satisfies
`Weighted[a][p] = Raw[a][p] * DynamicWeights[p]`, provided the dynamic
weights were computed (successfully) from the same placement map — which
also guarantees that every raw-matrix point has a dynamic weight. -/
theorem weighted_score_identity (planet_weights : Weights)
    (planet_multipliers : Multipliers) (planet_signs : Placements)
    (animals : List AnimalRecord) (dw : Weights)
    (hnd : (planet_weights.map Prod.fst).Nodup)
    (hdw : compute_dynamic_planet_weights planet_weights planet_multipliers planet_signs =
      .ok dw) :
    ∃ wst, compute_weighted_scoresSt (planet_weights.map Prod.fst)
        (compute_raw_scores planet_signs animals) dw = .ok wst ∧
      ∀ a p r, getCell (compute_raw_scores planet_signs animals) a p = some r →
        ∃ w, lookupKey p dw = some w ∧ getCell wst.weighted a p = some (r * w) := by
  refine ⟨_, weighted_pipeline_ok hnd hdw, ?_⟩
  intro a p r hr
  rw [getCell] at hr
  rcases hrow : lookupKey a (compute_raw_scores planet_signs animals).rows with _ | row
  · rw [hrow] at hr; exact Option.noConfusion hr
  · rw [hrow, Option.some_bind] at hr
    have hprow : p ∈ row.map Prod.fst := mem_fst_of_lookupKey_eq_some hr
    have hrowuni : row.map Prod.fst = (compute_raw_scores planet_signs animals).cols :=
      raw_rows_uniform _ _ _ (mem_of_lookupKey_eq_some hrow)
    have hpcols : p ∈ planet_signs.map Prod.fst := by
      rw [← raw_cols planet_signs animals, ← hrowuni]
      exact hprow
    obtain ⟨w, hw⟩ := dyn_ok_lookup_isSome hdw hpcols
    have hpsup : p ∈ planet_weights.map Prod.fst := by
      obtain ⟨ps, hps, hps1⟩ := List.mem_map.mp hpcols
      obtain ⟨bw, hbw⟩ := dyn_ok_base_weight hdw ps hps
      rw [hps1] at hbw
      exact mem_fst_of_lookupKey_eq_some hbw
    refine ⟨w, hw, ?_⟩
    rw [getCell]
    show (lookupKey a ((compute_raw_scores planet_signs animals).rows.map
        (fun r => (r.1, r.2.map (scaleCell (planet_weights.map Prod.fst) dw))))).bind
      (fun row => lookupKey p row) = some (r * w)
    rw [lookupKey_map_snd (List.map (scaleCell (planet_weights.map Prod.fst) dw)), hrow,
      Option.map_some', Option.some_bind,
      lookupKey_map_scaleCell, hr]
    simp [hpsup, hw]

/-! ## C9: `compute_weighted_scores` does not modify the raw frame -/

/-- **C9.** `compute_weighted_scores` never writes to its input raw frame:
whenever the loop completes, the `raw` component of the final state is
exactly the input frame (`weighted_scores` is built from `raw_scores.copy()`
and only the copy is mutated). -/
theorem weighted_scores_preserves_raw (supported_planets : List String)
    (raw_scores : ScoreFrame) (dynamic_weights : Weights) (st : WeightedState)
    (h : compute_weighted_scoresSt supported_planets raw_scores dynamic_weights = .ok st) :
    st.raw = raw_scores := by
  rw [compute_weighted_scoresSt] at h
  exact foldME_weightStep_raw h

/-! ## Characterisation of the two top-3 tables when all row labels resolve -/

theorem percentage_ok {supported_planets : List String} {weighted_scores : ScoreFrame}
    {animal_totals : List (String × ℚ)}
    (h : ∀ a ∈ top3 animal_totals, ∃ row, lookupKey a weighted_scores.rows = some row) :
    compute_top3_percentage_strength supported_planets weighted_scores animal_totals =
      .ok ((top3 animal_totals).map (fun a =>
        (a, supported_planets.map (fun p =>
          (p, psCellVal weighted_scores ((lookupKey a weighted_scores.rows).getD []) p))))) := by
  rw [compute_top3_percentage_strength]
  apply mapME_ok_of_forall
  intro a ha
  obtain ⟨row, hrow⟩ := h a ha
  rw [hrow]
  rfl

theorem truefalse_ok {supported_planets : List String} {weighted_scores : ScoreFrame}
    {animal_totals : List (String × ℚ)}
    (h : ∀ a ∈ top3 animal_totals, ∃ row, lookupKey a weighted_scores.rows = some row) :
    compute_top3_true_false supported_planets weighted_scores animal_totals =
      .ok ((top3 animal_totals).map (fun a =>
        (a, supported_planets.map (fun p =>
          (p, decide (p ∈ ((sortDesc ((lookupKey a weighted_scores.rows).getD [])).take 6).map
            Prod.fst)))))) := by
  rw [compute_top3_true_false]
  apply mapME_ok_of_forall
  intro a ha
  obtain ⟨row, hrow⟩ := h a ha
  rw [hrow]
  rfl

/-! ## C2: the percentage-strength normalisation -/

/-- **C2.** For every point column of the weighted frame,
`compute_top3_percentage_strength` normalises by the column maximum taken
over all animals (`colVals` ranges over every row of the frame, not only
the top 3): when that maximum is strictly positive each top-3 animal's
cell is `weighted/max*100`, and when it is `0` all top-3 cells are `0` —
a set value, never an error or a missing (`NaN`) entry. -/
theorem top3_percentage_uses_global_max (supported_planets : List String)
    (weighted_scores : ScoreFrame) (animal_totals : List (String × ℚ))
    (hlook : ∀ a ∈ top3 animal_totals, ∃ row, lookupKey a weighted_scores.rows = some row)
    (hsub : ∀ p ∈ weighted_scores.cols, p ∈ supported_planets) :
    ∃ ps, compute_top3_percentage_strength supported_planets weighted_scores animal_totals =
        .ok ps ∧
      ∀ p ∈ weighted_scores.cols, ∀ a ∈ top3 animal_totals,
        ∀ row, lookupKey a weighted_scores.rows = some row →
          ∀ v, lookupKey p row = some v →
            (∀ m, listMax (colVals weighted_scores p) = some m → 0 < m →
              (lookupKey a ps).bind (fun r => lookupKey p r) = some (some (v / m * 100))) ∧
            (listMax (colVals weighted_scores p) = some 0 →
              (lookupKey a ps).bind (fun r => lookupKey p r) = some (some 0)) := by
  refine ⟨_, percentage_ok hlook, ?_⟩
  intro p hp a ha row hrow v hv
  rw [lookupKey_map_key (fun a => supported_planets.map (fun p =>
      (p, psCellVal weighted_scores ((lookupKey a weighted_scores.rows).getD []) p)))
    (top3 animal_totals) a ha, Option.some_bind,
    lookupKey_map_key (fun p =>
      psCellVal weighted_scores ((lookupKey a weighted_scores.rows).getD []) p)
    supported_planets p (hsub p hp), hrow, Option.getD_some]
  constructor
  · intro m hm hm0
    rw [psCellVal, if_pos hp, hm]
    show some (some (if 0 < m then (lookupKey p row).getD 0 / m * 100 else 0)) = _
    rw [if_pos hm0, hv, Option.getD_some]
  · intro h0
    rw [psCellVal, if_pos hp, h0]
    show some (some (if (0:ℚ) < 0 then (lookupKey p row).getD 0 / 0 * 100 else 0)) = _
    rw [if_neg (lt_irrefl (0:ℚ))]

/-! ## C10: supported planets missing from the placement map stay `NaN` -/

/-- **C10.** The percentage-strength table has one column for every
supported planet; a supported planet that is absent from the placement
map (equivalently, from the weighted frame's columns) keeps the unset
`NaN` value (`some none`: the column exists, its value is not a number)
for every top-3 animal — it is neither set to `0` nor omitted. -/
theorem unplaced_supported_planet_nan (planet_weights : Weights)
    (planet_multipliers : Multipliers) (planet_signs : Placements)
    (animals : List AnimalRecord) (dw : Weights) (wst : WeightedState)
    (animal_totals : List (String × ℚ))
    (hdw : compute_dynamic_planet_weights planet_weights planet_multipliers planet_signs =
      .ok dw)
    (hwst : compute_weighted_scoresSt (planet_weights.map Prod.fst)
      (compute_raw_scores planet_signs animals) dw = .ok wst)
    (hlook : ∀ a ∈ top3 animal_totals, ∃ row, lookupKey a wst.weighted.rows = some row) :
    ∃ ps, compute_top3_percentage_strength (planet_weights.map Prod.fst)
        wst.weighted animal_totals = .ok ps ∧
      ∀ a ∈ top3 animal_totals, ∃ row, lookupKey a ps = some row ∧
        row.map Prod.fst = planet_weights.map Prod.fst ∧
        ∀ p ∈ planet_weights.map Prod.fst, p ∉ planet_signs.map Prod.fst →
          lookupKey p row = some none := by
  refine ⟨_, percentage_ok hlook, ?_⟩
  intro a ha
  refine ⟨_, lookupKey_map_key (fun a => (planet_weights.map Prod.fst).map (fun p =>
    (p, psCellVal wst.weighted ((lookupKey a wst.weighted.rows).getD []) p)))
    (top3 animal_totals) a ha, ?_, ?_⟩
  · rw [List.map_map]
    have hid : ∀ p ∈ planet_weights.map Prod.fst,
        (Prod.fst ∘ fun p => (p, psCellVal wst.weighted
          ((lookupKey a wst.weighted.rows).getD []) p)) p = id p := fun p _ => rfl
    rw [List.map_congr_left hid, List.map_id]
  · intro p hpsup hpnotpls
    rw [lookupKey_map_key (fun p =>
      psCellVal wst.weighted ((lookupKey a wst.weighted.rows).getD []) p)
      (planet_weights.map Prod.fst) p hpsup]
    have hcols : wst.weighted.cols = planet_signs.map Prod.fst := by
      rw [compute_weighted_scoresSt] at hwst
      exact (foldME_weightStep_cols hwst).trans (raw_cols planet_signs animals)
    have hpc : p ∉ wst.weighted.cols := by rw [hcols]; exact hpnotpls
    rw [psCellVal, if_neg hpc]

/-! ## C4: the number of true flags per top-3 animal -/

theorem countP_mem_of_nodup (sp s : List String) (hsp : sp.Nodup) (hs : s.Nodup)
    (hsub : ∀ x ∈ s, x ∈ sp) :
    sp.countP (fun p => decide (p ∈ s)) = s.length := by
  rw [List.countP_eq_length_filter]
  have hf : (sp.filter (fun p => decide (p ∈ s))).Nodup := hsp.filter _
  have hset : (sp.filter (fun p => decide (p ∈ s))).toFinset = s.toFinset := by
    ext x
    simp only [List.mem_toFinset, List.mem_filter, decide_eq_true_eq]
    exact ⟨fun h => h.2, fun h => ⟨hsub x h, h⟩⟩
  have h1 := List.toFinset_card_of_nodup hf
  have h2 := List.toFinset_card_of_nodup hs
  rw [← h1, hset, h2]

/-- **C4.** For each top-3 animal, the row of the true/false table contains
exactly `min 6 (number of points of the weighted frame)` true flags: six
when at least six points exist, and one per existing point otherwise. -/
theorem top3_true_false_count (supported_planets : List String)
    (weighted_scores : ScoreFrame) (animal_totals : List (String × ℚ))
    (hndsp : supported_planets.Nodup) (hndc : weighted_scores.cols.Nodup)
    (huni : ∀ r ∈ weighted_scores.rows, r.2.map Prod.fst = weighted_scores.cols)
    (hsub : ∀ p ∈ weighted_scores.cols, p ∈ supported_planets)
    (hlook : ∀ a ∈ top3 animal_totals, ∃ row, lookupKey a weighted_scores.rows = some row) :
    ∃ tf, compute_top3_true_false supported_planets weighted_scores animal_totals =
        .ok tf ∧
      ∀ a ∈ top3 animal_totals, ∀ row, lookupKey a tf = some row →
        row.countP (fun c => c.2) = min 6 weighted_scores.cols.length := by
  refine ⟨_, truefalse_ok hlook, ?_⟩
  intro a ha row hrowtf
  rw [lookupKey_map_key (fun a => supported_planets.map (fun p =>
      (p, decide (p ∈ ((sortDesc ((lookupKey a weighted_scores.rows).getD [])).take 6).map
        Prod.fst))))
      (top3 animal_totals) a ha] at hrowtf
  obtain rfl := Option.some.inj hrowtf
  obtain ⟨arow, harow⟩ := hlook a ha
  rw [harow, Option.getD_some, List.countP_map]
  show supported_planets.countP
    (fun p => decide (p ∈ ((sortDesc arow).take 6).map Prod.fst)) = _
  have harowkeys : arow.map Prod.fst = weighted_scores.cols :=
    huni _ (mem_of_lookupKey_eq_some harow)
  have hnd_arow : (arow.map Prod.fst).Nodup := by rw [harowkeys]; exact hndc
  have hsortfst : ((sortDesc arow).map Prod.fst).Perm (arow.map Prod.fst) :=
    (sortDesc_perm arow).map _
  have hnd_sort : ((sortDesc arow).map Prod.fst).Nodup := hsortfst.nodup_iff.mpr hnd_arow
  have hnd6 : (((sortDesc arow).take 6).map Prod.fst).Nodup := by
    rw [List.map_take]
    exact hnd_sort.sublist (List.take_sublist 6 _)
  have hsub6 : ∀ x ∈ ((sortDesc arow).take 6).map Prod.fst, x ∈ supported_planets := by
    intro x hx
    rw [List.map_take] at hx
    have hx1 : x ∈ (sortDesc arow).map Prod.fst := (List.take_sublist 6 _).subset hx
    have hx2 : x ∈ arow.map Prod.fst := hsortfst.mem_iff.mp hx1
    exact hsub x (harowkeys ▸ hx2)
  rw [countP_mem_of_nodup supported_planets _ hndsp hnd6 hsub6]
  rw [List.length_map, List.length_take, sortDesc_length]
  have hlen : arow.length = weighted_scores.cols.length := by
    rw [← harowkeys, List.length_map]
  rw [hlen]

/-! ## C5: bounds of the set percentage-strength values -/

theorem lookupKey_map_key_inv {β : Type} (g : String → β) :
    ∀ (l : List String) (k : String) (v : β),
      lookupKey k (l.map (fun a => (a, g a))) = some v → k ∈ l ∧ v = g k
  | [], _, _, h => by simp [lookupKey] at h
  | a :: as, k, v, h => by
    by_cases hak : a = k
    · subst hak
      simp only [List.map_cons, lookupKey, if_true] at h
      exact ⟨List.mem_cons_self _ _, (Option.some.inj h).symm⟩
    · simp only [List.map_cons, lookupKey, hak, if_false] at h
      obtain ⟨hk, hv⟩ := lookupKey_map_key_inv g as k v h
      exact ⟨List.mem_cons_of_mem _ hk, hv⟩

theorem filterMap_option_map {α β γ : Type} (g : α → Option β) (h : β → γ) :
    ∀ (l : List α), l.filterMap (fun x => (g x).map h) = (l.filterMap g).map h
  | [] => rfl
  | x :: xs => by
    rcases hgx : g x with _ | b
    · simp only [List.filterMap_cons, hgx, Option.map_none']
      exact filterMap_option_map g h xs
    · simp only [List.filterMap_cons, hgx, Option.map_some', List.map_cons]
      rw [filterMap_option_map g h xs]

theorem lookupScoreOr0_bounds {animal : AnimalRecord}
    (hscores : ∀ c ∈ animal.scores, 0 ≤ c.2 ∧ c.2 ≤ 100) (sign : String) :
    0 ≤ lookupScoreOr0 animal sign ∧ lookupScoreOr0 animal sign ≤ 100 := by
  rw [lookupScoreOr0]
  rcases hl : lookupKey sign animal.scores with _ | y
  · norm_num
  · rw [Option.getD_some]
    exact hscores (sign, y) (mem_of_lookupKey_eq_some hl)

theorem raw_colVals_bounds {planet_signs : Placements} {animals : List AnimalRecord}
    (hscores : ∀ rec ∈ animals, ∀ c ∈ rec.scores, 0 ≤ c.2 ∧ c.2 ≤ 100)
    {p : String} {v : ℚ} (hv : v ∈ colVals (compute_raw_scores planet_signs animals) p) :
    0 ≤ v ∧ v ≤ 100 := by
  rw [colVals] at hv
  obtain ⟨r, hr, hlv⟩ := List.mem_filterMap.mp hv
  rw [compute_raw_scores] at hr
  simp only at hr
  obtain ⟨rec, hrec, rfl⟩ := List.mem_map.mp hr
  obtain ⟨ps, _, _, rfl⟩ := lookupKey_map_pairs Prod.fst
    (fun ps => lookupScoreOr0 rec ps.2) planet_signs p v hlv
  exact lookupScoreOr0_bounds (hscores rec hrec) ps.2

theorem weighted_colVals_eq (supported_planets : List String) (dw : Weights)
    (planet_signs : Placements) (animals : List AnimalRecord) (p : String) :
    colVals
      ⟨(compute_raw_scores planet_signs animals).cols,
        (compute_raw_scores planet_signs animals).rows.map (fun r =>
          (r.1, r.2.map (scaleCell supported_planets dw)))⟩ p =
    (colVals (compute_raw_scores planet_signs animals) p).map (fun v =>
      if p ∈ supported_planets then v * ((lookupKey p dw).getD 0) else v) := by
  rw [colVals, colVals]
  show ((compute_raw_scores planet_signs animals).rows.map (fun r =>
      (r.1, r.2.map (scaleCell supported_planets dw)))).filterMap
    (fun r => lookupKey p r.2) = _
  rw [List.filterMap_map]
  have hcong : ∀ r ∈ (compute_raw_scores planet_signs animals).rows,
      ((fun r : String × List (String × ℚ) => lookupKey p r.2) ∘ (fun r =>
        (r.1, r.2.map (scaleCell supported_planets dw)))) r =
      ((lookupKey p r.2).map (fun v =>
        if p ∈ supported_planets then v * ((lookupKey p dw).getD 0) else v)) := by
    intro r _
    exact lookupKey_map_scaleCell supported_planets dw r.2 p
  rw [List.filterMap_congr hcong]
  exact filterMap_option_map _ _ _

/-- Bounds for one percentage-strength cell, for any weighted frame whose
column `p` consists of bounded raw values scaled by one common weight, and
any animal row whose `p`-entry (when present) belongs to that column. -/
theorem psCellVal_bounds (weighted_scores : ScoreFrame) (arow : List (String × ℚ))
    (p : String)
    (hscale : p ∈ weighted_scores.cols → ∃ w, ∀ u ∈ colVals weighted_scores p,
      ∃ cq, (0 ≤ cq ∧ cq ≤ 100) ∧ u = cq * w)
    (harow : lookupKey p arow = none ∨
      ∃ s, lookupKey p arow = some s ∧ s ∈ colVals weighted_scores p) :
    ∀ v, psCellVal weighted_scores arow p = some v → 0 ≤ v ∧ v ≤ 100 := by
  intro v hv
  rw [psCellVal] at hv
  by_cases hpc : p ∈ weighted_scores.cols
  · rw [if_pos hpc] at hv
    obtain hv' := Option.some.inj hv
    rcases hm : listMax (colVals weighted_scores p) with _ | m
    · rw [hm] at hv'
      rw [← hv']
      norm_num
    · rw [hm] at hv'
      by_cases hm0 : 0 < m
      · have hv2 : (if 0 < m then (lookupKey p arow).getD 0 / m * 100 else 0) = v := hv'
        rw [if_pos hm0] at hv2
        obtain ⟨w, hw⟩ := hscale hpc
        obtain ⟨cm, ⟨hcm0, _⟩, hmw⟩ := hw m (listMax_mem hm)
        have hwpos : 0 < w := by nlinarith
        rcases harow with hnone | ⟨s, hs, hmem⟩
        · rw [hnone] at hv2
          rw [← hv2]
          norm_num
        · rw [hs, Option.getD_some] at hv2
          obtain ⟨cs, ⟨hcs0, _⟩, hsw⟩ := hw s hmem
          have hs0 : 0 ≤ s := by rw [hsw]; exact mul_nonneg hcs0 (le_of_lt hwpos)
          have hsm : s ≤ m := le_listMax_of_mem hmem hm
          have hdiv1 : s / m ≤ 1 := (div_le_one hm0).mpr hsm
          have hdiv0 : 0 ≤ s / m := div_nonneg hs0 (le_of_lt hm0)
          constructor
          · rw [← hv2]; nlinarith
          · rw [← hv2]; nlinarith
      · have hv2 : (if 0 < m then (lookupKey p arow).getD 0 / m * 100 else 0) = v := hv'
        rw [if_neg hm0] at hv2
        rw [← hv2]
        norm_num
  · rw [if_neg hpc] at hv
    exact Option.noConfusion hv

/-- **C5 (amended).** Under the load-time invariants (animal scores in
`[0,100]`), every value that the percentage-strength table actually sets
(every non-`NaN` cell) lies in `[0, 100]`.  (The original claim, that
*every* entry is in `[0,100]` for *every* placement map, fails: a supported
planet absent from the placement map leaves its column `NaN`, see the
counterexample.) -/
theorem percentage_strength_bounds (planet_weights : Weights)
    (planet_multipliers : Multipliers) (planet_signs : Placements)
    (animals : List AnimalRecord) (dw : Weights) (wst : WeightedState)
    (animal_totals : List (String × ℚ))
    (hnd : (planet_weights.map Prod.fst).Nodup)
    (hscores : ∀ rec ∈ animals, ∀ c ∈ rec.scores, 0 ≤ c.2 ∧ c.2 ≤ 100)
    (hdw : compute_dynamic_planet_weights planet_weights planet_multipliers planet_signs =
      .ok dw)
    (hwst : compute_weighted_scoresSt (planet_weights.map Prod.fst)
      (compute_raw_scores planet_signs animals) dw = .ok wst)
    (hlook : ∀ a ∈ top3 animal_totals, ∃ row, lookupKey a wst.weighted.rows = some row) :
    ∃ ps, compute_top3_percentage_strength (planet_weights.map Prod.fst)
        wst.weighted animal_totals = .ok ps ∧
      ∀ a row, lookupKey a ps = some row →
        ∀ c ∈ row, ∀ v, c.2 = some v → 0 ≤ v ∧ v ≤ 100 := by
  have hwshape := @weighted_pipeline_ok planet_weights planet_multipliers
      planet_signs animals dw hnd hdw
  rw [hwst] at hwshape
  have hwf : wst.weighted =
      ⟨(compute_raw_scores planet_signs animals).cols,
        (compute_raw_scores planet_signs animals).rows.map (fun r =>
          (r.1, r.2.map (scaleCell (planet_weights.map Prod.fst) dw)))⟩ :=
    congrArg WeightedState.weighted (Except.ok.inj hwshape)
  refine ⟨_, percentage_ok hlook, ?_⟩
  intro a row hrow c hc v hv
  obtain ⟨ha, rfl⟩ := lookupKey_map_key_inv _ _ _ _ hrow
  obtain ⟨p, hp, rfl⟩ := List.mem_map.mp hc
  obtain ⟨arow, harowl⟩ := hlook a ha
  have hv2 : psCellVal wst.weighted arow p = some v := by
    rw [harowl, Option.getD_some] at hv
    exact hv
  refine psCellVal_bounds wst.weighted arow p ?_ ?_ v hv2
  · intro hpc
    have hpcols : p ∈ planet_signs.map Prod.fst := by
      rw [← raw_cols planet_signs animals]
      rw [hwf] at hpc
      exact hpc
    obtain ⟨w, hw⟩ := dyn_ok_lookup_isSome hdw hpcols
    refine ⟨w, ?_⟩
    intro u hu
    rw [hwf, weighted_colVals_eq] at hu
    obtain ⟨v0, hv0, rfl⟩ := List.mem_map.mp hu
    refine ⟨v0, raw_colVals_bounds hscores hv0, ?_⟩
    rw [if_pos hp, hw, Option.getD_some]
  · rcases hlp : lookupKey p arow with _ | s
    · exact Or.inl rfl
    · refine Or.inr ⟨s, rfl, ?_⟩
      rw [colVals]
      exact List.mem_filterMap.mpr ⟨(a, arow), mem_of_lookupKey_eq_some harowl, hlp⟩

/-! ## C6: no silent skipping in `compute_dynamic_planet_weights` -/

/-- **C6 (amended).** `compute_dynamic_planet_weights` does not silently
skip placement points that are absent from the weight table: any such point
makes the whole computation fail with a `KeyError` (the source performs an
unchecked `dict` subscript).  When the computation does succeed, the result
carries exactly one weight per placement point, in placement order. -/
theorem dynamic_weights_keyerror (planet_weights : Weights)
    (planet_multipliers : Multipliers) (planet_signs : Placements) :
    ((∃ ps ∈ planet_signs, lookupKey ps.1 planet_weights = none) →
      ∃ e, compute_dynamic_planet_weights planet_weights planet_multipliers
        planet_signs = .error e) ∧
    (∀ dw, compute_dynamic_planet_weights planet_weights planet_multipliers
        planet_signs = .ok dw → dw.map Prod.fst = planet_signs.map Prod.fst) := by
  constructor
  · rintro ⟨ps, hps, hnone⟩
    rw [compute_dynamic_planet_weights]
    apply mapME_error_of_exists
    exact ⟨ps, hps, _, dynWeightOf_error_of_no_weight hnone⟩
  · intro dw h
    exact dyn_ok_fst h

/-- **C6 (counterexample).** With weight table `{Sun: 23}` and placement map
`{Moon: ARIES}`, the claimed behaviour would be to skip `Moon` and return an
empty weight mapping; the code instead raises `KeyError: Moon`. -/
theorem dynamic_weights_no_skip_counterexample :
    compute_dynamic_planet_weights [("Sun", 23)] exM [("Moon", "ARIES")] =
      .error "KeyError: Moon" ∧
    compute_dynamic_planet_weights [("Sun", 23)] exM [("Moon", "ARIES")] ≠
      .ok [] := by
  with_unfolding_all decide

/-! ## C7: a multiplier table missing a sign row loads without error -/

/-- A well-formed multiplier CSV whose `ARIES` row is missing. -/
def exRowsMissingAries : List (String × List (String × ℚ)) := [("Taurus", [("Sun", 2)])]

/-- **C7 (counterexample).** Loading a multiplier table whose `ARIES` row is
missing does not fail: `_load_planet_multipliers` returns the (incomplete)
table — there is no load-time completeness validation.  The missing row only
surfaces later, as a `KeyError` raised inside
`compute_dynamic_planet_weights` when a placement references `ARIES`. -/
theorem multiplier_load_no_validation_counterexample :
    load_planet_multipliers exRowsMissingAries = [("TAURUS", [("Sun", 2)])] ∧
    lookupKey "ARIES" (load_planet_multipliers exRowsMissingAries) = none ∧
    compute_dynamic_planet_weights [("Sun", 23)]
      (load_planet_multipliers exRowsMissingAries) [("Sun", "ARIES")] =
      .error "KeyError: ARIES" := by
  with_unfolding_all decide

/-- **C7 (amended).** Loading a multiplier table with a missing sign row
succeeds — `_load_planet_multipliers` performs no completeness validation
(it is a total copy of the rows present, as its type shows) — and the gap is
detected only during dynamic-weight computation: the first analysis whose
placements contain a point (having a base weight) whose sign has no
multiplier row fails there with a `KeyError`. -/
theorem multiplier_missing_sign_fails_later (planet_weights : Weights)
    (csvRows : List (String × List (String × ℚ))) (planet_signs : Placements)
    (h : ∃ ps ∈ planet_signs,
      lookupKey ps.2 (load_planet_multipliers csvRows) = none ∧
      ∃ bw, lookupKey ps.1 planet_weights = some bw) :
    ∃ e, compute_dynamic_planet_weights planet_weights (load_planet_multipliers csvRows)
      planet_signs = .error e := by
  obtain ⟨ps, hps, hnone, bw, hbw⟩ := h
  rw [compute_dynamic_planet_weights]
  apply mapME_error_of_exists
  exact ⟨ps, hps, _, dynWeightOf_error_of_no_sign hbw hnone⟩

/-! ## C8: determinism of the scoring pipeline -/

/-- **C8.** The scoring pipeline is deterministic: its outputs are a pure
function of the three configuration tables and the placement map, with no
other state.  Two runs on equal inputs produce identical dynamic weights,
raw scores, weighted scores, totals, percentage-strength and true/false
tables. -/
theorem pipeline_deterministic (pw pw' : Weights) (pm pm' : Multipliers)
    (an an' : List AnimalRecord) (pls pls' : Placements)
    (h1 : pw = pw') (h2 : pm = pm') (h3 : an = an') (h4 : pls = pls') :
    run_scoring_pipeline pw pm an pls = run_scoring_pipeline pw' pm' an' pls' := by
  rw [h1, h2, h3, h4]

/-! ## C5 counterexample: an unplaced supported planet leaves a `NaN` cell -/

/-- Placement map that covers `Sun` only, although `Moon` is supported. -/
def exPls5 : Placements := [("Sun", "ARIES")]

/-- Dynamic weights for `exPls5`: `23 * 1.2 = 27.6`. -/
def exDW5 : Weights := [("Sun", 138/5)]

/-- The weighted frame for `exPls5`: `80 * 27.6 = 2208`, `50 * 27.6 = 1380`. -/
def exWF5 : ScoreFrame :=
  ⟨["Sun"], [("Fox", [("Sun", 2208)]), ("Bear", [("Sun", 1380)])]⟩

/-- Animal totals for `exWF5`. -/
def exTotals5 : List (String × ℚ) := [("Fox", 2208), ("Bear", 1380)]

/-- The percentage-strength table for `exPls5`: the `Moon` column exists but
is never assigned, so its cells are `NaN` (`none`). -/
def exPS5 : List (String × List (String × Option ℚ)) :=
  [("Fox", [("Sun", some 100), ("Moon", none)]),
   ("Bear", [("Sun", some (125/2)), ("Moon", none)])]

set_option maxRecDepth 8000 in
/-- **C5 (counterexample).** Running the scoring pipeline on a placement map
that lacks the supported planet `Moon` yields a percentage-strength table in
which the `Moon` cells carry no numeric value at all (`none`, pandas `NaN`) —
so not every entry of the table is a number in `[0, 100]`. -/
theorem percentage_strength_nan_counterexample :
    compute_dynamic_planet_weights exW exM exPls5 = .ok exDW5 ∧
    compute_weighted_scoresSt (exW.map Prod.fst) (compute_raw_scores exPls5 exAnimals)
      exDW5 = .ok ⟨compute_raw_scores exPls5 exAnimals, exWF5⟩ ∧
    compute_animal_totals exWF5 = exTotals5 ∧
    compute_top3_percentage_strength (exW.map Prod.fst) exWF5 exTotals5 = .ok exPS5 ∧
    ¬ (∀ row ∈ exPS5, ∀ c ∈ row.2, c.2 ≠ none) := by
  refine ⟨?_, ?_, ?_, ?_, ?_⟩
  · with_unfolding_all decide
  · with_unfolding_all decide
  · with_unfolding_all decide
  · with_unfolding_all decide
  · with_unfolding_all decide

/-! ## Witnesses: the theorems above applied at concrete inputs -/

/-- The dynamic weights of the spec scenario: `{Sun: 27.6, Moon: 13.5}`. -/
def exDW : Weights := [("Sun", 138/5), ("Moon", 27/2)]

set_option maxRecDepth 8000 in
theorem weighted_score_identity_witness :
    ∃ wst, compute_weighted_scoresSt (exW.map Prod.fst)
        (compute_raw_scores exPls exAnimals) exDW = .ok wst ∧
      ∀ a p r, getCell (compute_raw_scores exPls exAnimals) a p = some r →
        ∃ w, lookupKey p exDW = some w ∧ getCell wst.weighted a p = some (r * w) :=
  weighted_score_identity exW exM exPls exAnimals exDW (by decide)
    (by with_unfolding_all decide)

set_option maxRecDepth 8000 in
theorem exWF5_lookups : ∀ a ∈ top3 exTotals5, ∃ row, lookupKey a exWF5.rows = some row := by
  intro a ha
  rw [show top3 exTotals5 = ["Fox", "Bear"] from rfl] at ha
  rcases List.mem_cons.mp ha with rfl | ha2
  · exact ⟨[("Sun", (2208 : ℚ))], by with_unfolding_all decide⟩
  rcases List.mem_cons.mp ha2 with rfl | ha3
  · exact ⟨[("Sun", (1380 : ℚ))], by with_unfolding_all decide⟩
  · exact absurd ha3 (List.not_mem_nil _)

set_option maxRecDepth 8000 in
theorem top3_percentage_uses_global_max_witness :
    ∃ ps, compute_top3_percentage_strength ["Sun", "Moon"] exWF5 exTotals5 = .ok ps ∧
      ∀ p ∈ exWF5.cols, ∀ a ∈ top3 exTotals5,
        ∀ row, lookupKey a exWF5.rows = some row →
          ∀ v, lookupKey p row = some v →
            (∀ m, listMax (colVals exWF5 p) = some m → 0 < m →
              (lookupKey a ps).bind (fun r => lookupKey p r) = some (some (v / m * 100))) ∧
            (listMax (colVals exWF5 p) = some 0 →
              (lookupKey a ps).bind (fun r => lookupKey p r) = some (some 0)) :=
  top3_percentage_uses_global_max ["Sun", "Moon"] exWF5 exTotals5 exWF5_lookups
    (by decide)

set_option maxRecDepth 8000 in
theorem top3_true_false_count_witness :
    ∃ tf, compute_top3_true_false ["Sun", "Moon"] exWF5 exTotals5 = .ok tf ∧
      ∀ a ∈ top3 exTotals5, ∀ row, lookupKey a tf = some row →
        row.countP (fun c => c.2) = min 6 exWF5.cols.length :=
  top3_true_false_count ["Sun", "Moon"] exWF5 exTotals5 (by decide) (by decide)
    (by with_unfolding_all decide) (by decide) exWF5_lookups

set_option maxRecDepth 8000 in
theorem percentage_strength_bounds_witness :
    ∃ ps, compute_top3_percentage_strength (exW.map Prod.fst)
        (WeightedState.mk (compute_raw_scores exPls5 exAnimals) exWF5).weighted
        exTotals5 = .ok ps ∧
      ∀ a row, lookupKey a ps = some row →
        ∀ c ∈ row, ∀ v, c.2 = some v → 0 ≤ v ∧ v ≤ 100 :=
  percentage_strength_bounds exW exM exPls5 exAnimals exDW5
    ⟨compute_raw_scores exPls5 exAnimals, exWF5⟩ exTotals5
    (by decide) (by with_unfolding_all decide) (by with_unfolding_all decide)
    (by with_unfolding_all decide) exWF5_lookups

set_option maxRecDepth 8000 in
theorem dynamic_weights_keyerror_witness :
    (∃ e, compute_dynamic_planet_weights [("Sun", 23)] exM [("Moon", "ARIES")] =
      .error e) ∧
    exDW.map Prod.fst = exPls.map Prod.fst :=
  ⟨(dynamic_weights_keyerror [("Sun", 23)] exM [("Moon", "ARIES")]).1
      ⟨("Moon", "ARIES"), by decide, by decide⟩,
    (dynamic_weights_keyerror exW exM exPls).2 exDW (by with_unfolding_all decide)⟩

theorem multiplier_missing_sign_fails_later_witness :
    ∃ e, compute_dynamic_planet_weights [("Sun", 23)]
      (load_planet_multipliers exRowsMissingAries) [("Sun", "ARIES")] = .error e :=
  multiplier_missing_sign_fails_later [("Sun", 23)] exRowsMissingAries [("Sun", "ARIES")]
    ⟨("Sun", "ARIES"), by decide, by with_unfolding_all decide, 23, by decide⟩

theorem pipeline_deterministic_witness :
    run_scoring_pipeline exW exM exAnimals exPls =
      run_scoring_pipeline exW exM exAnimals exPls :=
  pipeline_deterministic exW exW exM exM exAnimals exAnimals exPls exPls rfl rfl rfl rfl

set_option maxRecDepth 8000 in
theorem weighted_scores_preserves_raw_witness :
    (WeightedState.mk (compute_raw_scores exPls5 exAnimals) exWF5).raw =
      compute_raw_scores exPls5 exAnimals :=
  weighted_scores_preserves_raw (exW.map Prod.fst) (compute_raw_scores exPls5 exAnimals)
    exDW5 ⟨compute_raw_scores exPls5 exAnimals, exWF5⟩ (by with_unfolding_all decide)

set_option maxRecDepth 8000 in
theorem unplaced_supported_planet_nan_witness :
    ∃ ps, compute_top3_percentage_strength (exW.map Prod.fst)
        (WeightedState.mk (compute_raw_scores exPls5 exAnimals) exWF5).weighted
        exTotals5 = .ok ps ∧
      ∀ a ∈ top3 exTotals5, ∃ row, lookupKey a ps = some row ∧
        row.map Prod.fst = exW.map Prod.fst ∧
        ∀ p ∈ exW.map Prod.fst, p ∉ exPls5.map Prod.fst →
          lookupKey p row = some none :=
  unplaced_supported_planet_nan exW exM exPls5 exAnimals exDW5
    ⟨compute_raw_scores exPls5 exAnimals, exWF5⟩ exTotals5
    (by with_unfolding_all decide) (by with_unfolding_all decide) exWF5_lookups

end Plumatotm
